import Mathlib

/-!
Shallow embedding of the Winternitz one-time signature package
(`signature.go`).  Bytes are modelled as natural numbers; byte arrays and
slices as `List Nat`.  The two external primitives are parameters of every
definition:

* `H : List Nat → List Nat` models `blake2b.Sum256` (a 32-byte digest of an
  arbitrary byte string); the predicate `validHash` records the properties
  guaranteed by its Go type `[32]byte`.
* `prng : List Nat → Nat → Nat → List Nat` models
  `chacha20prng.New(seed, nonce).Read` of a given number of bytes;
  `validPRNG` records that the requested number of bytes is produced.

Fixed-size Go arrays (`[32]byte`, `[34]byte`, `[1088]byte`) become lists
whose lengths are tracked by hypotheses derived from these predicates.
-/

namespace Winternitz

/-- Hash is modelled as producing a 32-byte digest whose entries are bytes
(`< 256`), exactly what the Go return type `[32]byte` guarantees. -/
def validHash (H : List Nat → List Nat) : Prop :=
  ∀ m : List Nat, (H m).length = 32 ∧ ∀ b ∈ H m, b < 256

/-- The keystream expander fills the whole requested buffer
(`chacha20prng ... .Read` never errors and always fills the slice). -/
def validPRNG (prng : List Nat → Nat → Nat → List Nat) : Prop :=
  ∀ seed nonce len, (prng seed nonce len).length = len

/-- Repeated application of the hash, mirroring the Go loops
`for j := 0; j < count; j++ { h = H(h) }`. -/
def iterateHash (H : List Nat → List Nat) : List Nat → Nat → List Nat
  | h, 0 => h
  | h, n + 1 => iterateHash H (H h) n

/-- The 32-byte block of a buffer starting at byte offset `32 * i`
(`y[off : off+32]` with `off = 32 * i`). -/
def block (y : List Nat) (i : Nat) : List Nat :=
  (y.drop (32 * i)).take 32

/-- Overwriting the `i`-th 32-byte block of a buffer
(`copy(y[off:off+32], h[:])`). -/
def updBlock (y : List Nat) (i : Nat) (blk : List Nat) : List Nat :=
  y.take (32 * i) ++ blk ++ y.drop (32 * i + 32)

/-- The in-place chain walk shared by `GenerateKey`, `Sign` and `Verify`:
process blocks `0, 1, ..., n-1` of the buffer in order, replacing block `i`
by `f i` of its current contents. -/
def chainLoop (f : Nat → List Nat → List Nat) (y : List Nat) : Nat → List Nat
  | 0 => y
  | n + 1 => updBlock (chainLoop f y n) n (f n (block (chainLoop f y n) n))

/-- The 1088 bytes of chain-seed material read inside `GenerateKey`:
`chacha20prng.New(sk[:], 0).Read(y[:])` with `len(y) = 34*32`. -/
def generateKeySeedMaterial (prng : List Nat → Nat → Nat → List Nat)
    (sk : List Nat) : List Nat :=
  prng sk 0 1088

/-- The buffer `y` of `GenerateKey` after its chain loop: every 32-byte
block hashed 256 times in place (`for i := 0; i < 256; i++`). -/
def generateKeyChainTops (H : List Nat → List Nat)
    (prng : List Nat → Nat → Nat → List Nat) (sk : List Nat) : List Nat :=
  chainLoop (fun _ h => iterateHash H h 256) (generateKeySeedMaterial prng sk) 34

/-- The public key produced by `GenerateKey` for a given secret key:
`blake2b.Sum256(y[:])` of the walked buffer. -/
def publicKeyOf (H : List Nat → List Nat)
    (prng : List Nat → Nat → Nat → List Nat) (sk : List Nat) : List Nat :=
  H (generateKeyChainTops H prng sk)

/-- GenerateKey.  The entropy read `rand.Read(sk[:])` is modelled by its
outcome: either an error `e` (propagated by the early `return`) or the 32
bytes read into the secret key. -/
def generateKey (E : Type) (H : List Nat → List Nat)
    (prng : List Nat → Nat → Nat → List Nat)
    (randRead : Except E (List Nat)) : Except E (List Nat × List Nat) :=
  match randRead with
  | Except.error e => Except.error e
  | Except.ok sk => Except.ok (publicKeyOf H prng sk, sk)

/-- The checksum accumulation `cksum += 255 - uint16(b)` over the digest
bytes, with `cksum` a `uint16` (hence the explicit `% 65536`). -/
def checksum (H : List Nat → List Nat) (m : List Nat) : Nat :=
  (H m).foldl (fun c b => (c + (255 - b)) % 65536) 0

/-- checksummedMessageHash: `H(m)` followed by the 2-byte little-endian
checksum (`binary.LittleEndian.PutUint16` stores `cksum % 256` then
`(cksum >> 8) % 256`). -/
def checksummedMessageHash (H : List Nat → List Nat) (m : List Nat) : List Nat :=
  H m ++ [checksum H m % 256, checksum H m / 256 % 256]

/-- The 1088 bytes of chain-seed material read inside `Sign`:
`chacha20prng.New(sk[:], 0).Read(y[:])`, same expander, same nonce `0`. -/
def signSeedMaterial (prng : List Nat → Nat → Nat → List Nat)
    (sk : List Nat) : List Nat :=
  prng sk 0 1088

/-- Sign: walk block `i` of the expanded seed material forward by
`messageHash[i]` hash applications (`for j := byte(0); j < b; j++`). -/
def sign (H : List Nat → List Nat) (prng : List Nat → Nat → Nat → List Nat)
    (sk message : List Nat) : List Nat :=
  let messageHash := checksummedMessageHash H message
  chainLoop (fun i h => iterateHash H h (messageHash.getD i 0))
    (signSeedMaterial prng sk) 34

/-- Verify: walk block `i` of the signature forward by `255 - b + 1`
further hash applications (`for j := 255 - int(b); j >= 0; j--` runs for
`j = 255-b, ..., 0`), then compare the hash of the recovered buffer with
the public key (`bytes.Equal(pk[:], fingerprint[:])`). -/
def verify (H : List Nat → List Nat) (pk message sig : List Nat) : Bool :=
  let messageHash := checksummedMessageHash H message
  let y := chainLoop (fun i h => iterateHash H h (255 - messageHash.getD i 0 + 1))
    sig 34
  pk == H y

/-! Concrete instances of the abstract primitives, used to evaluate the
definitions on closed inputs. -/

/-- A trivially valid hash: constant all-zero digest. -/
def zeroHash : List Nat → List Nat := fun _ => List.replicate 32 0

/-- A valid hash whose chains genuinely move: the head byte is incremented
modulo 256 at each application. -/
def stepHash : List Nat → List Nat :=
  fun l => ((l.headD 0 + 1) % 256) :: List.replicate 31 0

/-- A trivially valid keystream expander: all-zero stream. -/
def zeroPRNG : List Nat → Nat → Nat → List Nat := fun _ _ len => List.replicate len 0

/-- The all-zero 32-byte secret key. -/
def zeroSK : List Nat := List.replicate 32 0

/-! Basic lemmas about the embedding. -/

theorem iterateHash_zero (H : List Nat → List Nat) (h : List Nat) :
    iterateHash H h 0 = h := rfl

theorem iterateHash_succ (H : List Nat → List Nat) (h : List Nat) (n : Nat) :
    iterateHash H h (n + 1) = iterateHash H (H h) n := rfl

theorem iterateHash_add (H : List Nat → List Nat) (h : List Nat) (a b : Nat) :
    iterateHash H h (a + b) = iterateHash H (iterateHash H h a) b := by
  induction a generalizing h with
  | zero => simp [iterateHash_zero]
  | succ a ih =>
      have : a + 1 + b = (a + b) + 1 := by omega
      rw [this, iterateHash_succ, iterateHash_succ, ih]

theorem length_iterateHash {H : List Nat → List Nat} (hH : validHash H)
    {h : List Nat} (hh : h.length = 32) (n : Nat) :
    (iterateHash H h n).length = 32 := by
  induction n generalizing h with
  | zero => simpa [iterateHash_zero] using hh
  | succ n ih => rw [iterateHash_succ]; exact ih (hH h).1

theorem length_block {y : List Nat} {i : Nat} (h : 32 * i + 32 ≤ y.length) :
    (block y i).length = 32 := by
  simp only [block, List.length_take, List.length_drop]
  omega

theorem length_flatten_const {L : List (List Nat)}
    (hL : ∀ l ∈ L, l.length = 32) : L.flatten.length = 32 * L.length := by
  induction L with
  | nil => simp
  | cons a L ih =>
      have ha : a.length = 32 := hL a (List.mem_cons_self a L)
      have hL' : ∀ l ∈ L, l.length = 32 := fun l hl => hL l (List.mem_cons_of_mem a hl)
      simp only [List.flatten_cons, List.length_append, ih hL', ha, List.length_cons]
      ring

theorem block_flatten {L : List (List Nat)} (hL : ∀ l ∈ L, l.length = 32)
    (i : Nat) (hi : i < L.length) : block L.flatten i = L[i] := by
  induction L generalizing i with
  | nil => simp at hi
  | cons a L ih =>
      have ha : a.length = 32 := hL a (List.mem_cons_self a L)
      have hL' : ∀ l ∈ L, l.length = 32 := fun l hl => hL l (List.mem_cons_of_mem a hl)
      cases i with
      | zero =>
          simp only [block, List.flatten_cons, Nat.mul_zero, List.drop_zero,
            List.getElem_cons_zero]
          exact List.take_left' ha
      | succ i =>
          have hi' : i < L.length := by simpa using hi
          have h32 : 32 * (i + 1) = 32 + 32 * i := by ring
          simp only [block, List.flatten_cons, List.getElem_cons_succ, h32]
          rw [← List.drop_drop, List.drop_left' ha]
          exact ih hL' i hi'

theorem block_append {P rest : List Nat} {n : Nat} (hP : P.length = 32 * n) :
    block (P ++ rest) n = rest.take 32 := by
  unfold block
  rw [← hP, List.drop_left]

theorem updBlock_append {P rest blk : List Nat} {n : Nat} (hP : P.length = 32 * n) :
    updBlock (P ++ rest) n blk = P ++ blk ++ rest.drop 32 := by
  unfold updBlock
  rw [List.take_left' hP, ← List.drop_drop, List.drop_left' hP, List.append_assoc]

theorem chainLoop_spec (f : Nat → List Nat → List Nat)
    (hf : ∀ i h, h.length = 32 → (f i h).length = 32) (y : List Nat) (n : Nat)
    (hn : 32 * n ≤ y.length) :
    chainLoop f y n =
      ((List.range n).map (fun i => f i (block y i))).flatten ++ y.drop (32 * n) := by
  induction n with
  | zero => simp [chainLoop]
  | succ n ih =>
      have hn' : 32 * n ≤ y.length := by omega
      have hlen : ∀ l ∈ (List.range n).map (fun i => f i (block y i)), l.length = 32 := by
        intro l hl
        rcases List.mem_map.1 hl with ⟨i, hi, rfl⟩
        have hi' : i < n := List.mem_range.1 hi
        exact hf i _ (length_block (by omega))
      have hPf : (((List.range n).map (fun i => f i (block y i))).flatten).length = 32 * n := by
        rw [length_flatten_const hlen]; simp
      have hblock : block (chainLoop f y n) n = block y n := by
        rw [ih hn', block_append hPf]; rfl
      show updBlock (chainLoop f y n) n (f n (block (chainLoop f y n) n)) = _
      rw [hblock, ih hn', updBlock_append hPf, List.drop_drop,
        List.range_succ, List.map_append, List.flatten_append]
      simp only [List.map_cons, List.map_nil, List.flatten_cons, List.flatten_nil,
        List.append_nil, List.append_assoc]
      have h32 : 32 * (n + 1) = 32 * n + 32 := by ring
      rw [h32]

theorem drop_eq_nil_of_eq {y : List Nat} {n : Nat} (h : y.length = n) :
    y.drop n = [] :=
  List.drop_of_length_le (le_of_eq h)

theorem checksummedMessageHash_length {H : List Nat → List Nat}
    (hH : validHash H) (m : List Nat) :
    (checksummedMessageHash H m).length = 34 := by
  simp [checksummedMessageHash, (hH m).1]

theorem checksummedMessageHash_mem_lt {H : List Nat → List Nat}
    (hH : validHash H) (m : List Nat) :
    ∀ b ∈ checksummedMessageHash H m, b < 256 := by
  intro b hb
  simp only [checksummedMessageHash, List.mem_append, List.mem_cons,
    List.not_mem_nil, or_false] at hb
  rcases hb with hb | hb | hb
  · exact (hH m).2 b hb
  · subst hb; exact Nat.mod_lt _ (by omega)
  · subst hb; exact Nat.mod_lt _ (by omega)

theorem checksummedMessageHash_getD_lt {H : List Nat → List Nat}
    (hH : validHash H) (m : List Nat) (i : Nat) :
    (checksummedMessageHash H m).getD i 0 < 256 := by
  by_cases hi : i < (checksummedMessageHash H m).length
  · rw [List.getD_eq_getElem _ _ hi]
    exact checksummedMessageHash_mem_lt hH m _ (List.getElem_mem hi)
  · rw [List.getD_eq_default _ _ (by omega)]
    omega

theorem getElem_map_range (g : Nat → List Nat) {i n : Nat}
    (h : i < ((List.range n).map g).length) : ((List.range n).map g)[i] = g i := by
  simp

theorem mapped_blocks_length {H : List Nat → List Nat} (hH : validHash H)
    {y : List Nat} (hy : y.length = 1088) (c : Nat → Nat) :
    ∀ l ∈ (List.range 34).map (fun i => iterateHash H (block y i) (c i)),
      l.length = 32 := by
  intro l hl
  rcases List.mem_map.1 hl with ⟨i, hi, rfl⟩
  have hi' : i < 34 := List.mem_range.1 hi
  exact length_iterateHash hH (length_block (by omega)) _

theorem generateKeyChainTops_eq {H : List Nat → List Nat}
    {prng : List Nat → Nat → Nat → List Nat} (hH : validHash H)
    (hprng : validPRNG prng) (sk : List Nat) :
    generateKeyChainTops H prng sk =
      ((List.range 34).map (fun i =>
        iterateHash H (block (generateKeySeedMaterial prng sk) i) 256)).flatten := by
  have hy : (generateKeySeedMaterial prng sk).length = 1088 := hprng sk 0 1088
  unfold generateKeyChainTops
  rw [chainLoop_spec _ (fun i h hh => length_iterateHash hH hh 256) _ 34 (by omega)]
  rw [show (32 : Nat) * 34 = 1088 by norm_num, drop_eq_nil_of_eq hy, List.append_nil]

theorem sign_eq {H : List Nat → List Nat} {prng : List Nat → Nat → Nat → List Nat}
    (hH : validHash H) (hprng : validPRNG prng) (sk msg : List Nat) :
    sign H prng sk msg =
      ((List.range 34).map (fun i =>
        iterateHash H (block (signSeedMaterial prng sk) i)
          ((checksummedMessageHash H msg).getD i 0))).flatten := by
  have hy : (signSeedMaterial prng sk).length = 1088 := hprng sk 0 1088
  unfold sign
  rw [chainLoop_spec _ (fun i h hh => length_iterateHash hH hh _) _ 34 (by omega)]
  rw [show (32 : Nat) * 34 = 1088 by norm_num, drop_eq_nil_of_eq hy, List.append_nil]

theorem verify_eq {H : List Nat → List Nat} (hH : validHash H)
    (pk msg sig : List Nat) (hsig : sig.length = 1088) :
    verify H pk msg sig =
      (pk == H (((List.range 34).map (fun i =>
        iterateHash H (block sig i)
          (255 - (checksummedMessageHash H msg).getD i 0 + 1))).flatten)) := by
  show (pk == H (chainLoop (fun i h =>
      iterateHash H h (255 - (checksummedMessageHash H msg).getD i 0 + 1)) sig 34)) = _
  rw [chainLoop_spec _ (fun i h hh => length_iterateHash hH hh _) _ 34 (by omega)]
  rw [show (32 : Nat) * 34 = 1088 by norm_num, drop_eq_nil_of_eq hsig, List.append_nil]

theorem length_sign {H : List Nat → List Nat} {prng : List Nat → Nat → Nat → List Nat}
    (hH : validHash H) (hprng : validPRNG prng) (sk msg : List Nat) :
    (sign H prng sk msg).length = 1088 := by
  have hy : (signSeedMaterial prng sk).length = 1088 := hprng sk 0 1088
  rw [sign_eq hH hprng, length_flatten_const (mapped_blocks_length hH hy _)]
  simp

theorem foldl_checksum_eq (l : List Nat) (c : Nat)
    (h : c + (l.map (fun b => 255 - b)).sum < 65536) :
    l.foldl (fun c b => (c + (255 - b)) % 65536) c =
      c + (l.map (fun b => 255 - b)).sum := by
  induction l generalizing c with
  | nil => simp
  | cons b l ih =>
      simp only [List.foldl_cons, List.map_cons, List.sum_cons] at h ⊢
      have h1 : c + (255 - b) < 65536 := by omega
      rw [Nat.mod_eq_of_lt h1, ih (c + (255 - b)) (by omega)]
      omega

theorem sum_dist_le (l : List Nat) :
    (l.map (fun b => 255 - b)).sum ≤ 255 * l.length := by
  induction l with
  | nil => simp
  | cons b l ih =>
      simp only [List.map_cons, List.sum_cons, List.length_cons]
      omega

theorem checksum_spec {H : List Nat → List Nat} (hH : validHash H) (m : List Nat) :
    checksum H m = ((H m).map (fun b => 255 - b)).sum ∧
      ((H m).map (fun b => 255 - b)).sum ≤ 8160 := by
  have hlen := (hH m).1
  have hsum := sum_dist_le (H m)
  rw [hlen] at hsum
  have hfold := foldl_checksum_eq (H m) 0 (by omega)
  refine ⟨?_, by omega⟩
  unfold checksum
  simpa using hfold

theorem zeroHash_valid : validHash zeroHash := by
  intro m
  refine ⟨by simp [zeroHash], ?_⟩
  intro b hb
  simp only [zeroHash, List.mem_replicate] at hb
  omega

theorem stepHash_valid : validHash stepHash := by
  intro m
  refine ⟨by simp [stepHash], ?_⟩
  intro b hb
  simp only [stepHash, List.mem_cons, List.mem_replicate] at hb
  rcases hb with hb | hb
  · subst hb; exact Nat.mod_lt _ (by omega)
  · omega

theorem zeroPRNG_valid : validPRNG zeroPRNG := by
  intro s n l
  simp [zeroPRNG]

theorem seedMaterial_eq (prng : List Nat → Nat → Nat → List Nat) (sk : List Nat) :
    generateKeySeedMaterial prng sk = signSeedMaterial prng sk := rfl

theorem foldl_plain_eq_sum (l : List Nat) (c : Nat) :
    l.foldl (fun c b => c + (255 - b)) c = c + (l.map (fun b => 255 - b)).sum := by
  induction l generalizing c with
  | nil => simp
  | cons b l ih =>
      simp only [List.foldl_cons, List.map_cons, List.sum_cons, ih (c + (255 - b))]
      omega

/-! The claims. -/

/-- C1: for every 32-byte SecretKey and every message (including the empty
message), if the (PublicKey, SecretKey) pair was produced by GenerateKey from
the same seed bytes, then `Verify(pk, message, Sign(sk, message))` returns
true. -/
theorem C1_sign_verify_roundtrip (H : List Nat → List Nat)
    (prng : List Nat → Nat → Nat → List Nat) (skB pk sk msg : List Nat)
    (hH : validHash H) (hprng : validPRNG prng)
    (hgen : generateKey Unit H prng (Except.ok skB) = Except.ok (pk, sk)) :
    verify H pk msg (sign H prng sk msg) = true := by
  have h2 : publicKeyOf H prng skB = pk ∧ skB = sk := by
    simpa [generateKey, Prod.ext_iff] using hgen
  obtain ⟨hpk, hsk⟩ := h2
  subst hsk
  subst hpk
  have hy0 : (signSeedMaterial prng skB).length = 1088 := hprng skB 0 1088
  have hsiglen : (sign H prng skB msg).length = 1088 := length_sign hH hprng skB msg
  rw [verify_eq hH _ msg _ hsiglen]
  have hblocks : ∀ i, i < 34 → block (sign H prng skB msg) i =
      iterateHash H (block (signSeedMaterial prng skB) i)
        ((checksummedMessageHash H msg).getD i 0) := by
    intro i hi
    rw [sign_eq hH hprng,
      block_flatten (mapped_blocks_length hH hy0 _) i (by simpa using hi)]
    exact getElem_map_range _ _
  have hkey : ∀ i ∈ List.range 34,
      iterateHash H (block (sign H prng skB msg) i)
          (255 - (checksummedMessageHash H msg).getD i 0 + 1) =
        iterateHash H (block (signSeedMaterial prng skB) i) 256 := by
    intro i hi
    have hi' : i < 34 := List.mem_range.1 hi
    have hlt := checksummedMessageHash_getD_lt hH msg i
    have harith : (checksummedMessageHash H msg).getD i 0 +
        (255 - (checksummedMessageHash H msg).getD i 0 + 1) = 256 := by omega
    rw [hblocks i hi', ← iterateHash_add, harith]
  rw [List.map_congr_left hkey]
  unfold publicKeyOf
  rw [generateKeyChainTops_eq hH hprng, seedMaterial_eq]
  exact beq_self_eq_true _

/-- C1 witness: a concrete key pair from the all-zero seed signs and
verifies the empty message. -/
theorem C1_witness :
    validHash zeroHash ∧ validPRNG zeroPRNG ∧
    generateKey Unit zeroHash zeroPRNG (Except.ok zeroSK) =
      Except.ok (publicKeyOf zeroHash zeroPRNG zeroSK, zeroSK) ∧
    verify zeroHash (publicKeyOf zeroHash zeroPRNG zeroSK) []
      (sign zeroHash zeroPRNG zeroSK []) = true :=
  ⟨zeroHash_valid, zeroPRNG_valid, rfl,
    C1_sign_verify_roundtrip zeroHash zeroPRNG zeroSK
      (publicKeyOf zeroHash zeroPRNG zeroSK) zeroSK []
      zeroHash_valid zeroPRNG_valid rfl⟩

set_option maxRecDepth 100000 in
/-- C2 counterexample: with a concrete valid hash and expander, the public
key computed by GenerateKey is NOT the hash of chain tops obtained by
hashing each chain seed 255 times — the code hashes 256 times. -/
theorem C2_counterexample :
    ¬ (publicKeyOf stepHash zeroPRNG zeroSK =
      stepHash (((List.range 34).map (fun i =>
        iterateHash stepHash (block (generateKeySeedMaterial zeroPRNG zeroSK) i)
          255)).flatten)) := by
  decide

/-- C2 (amended): GenerateKey computes each of the 34 chain tops by hashing
the corresponding chain seed exactly 256 times, and the public key is the
hash of the in-order concatenation of those 34 values. -/
theorem C2_generateKey_chains (H : List Nat → List Nat)
    (prng : List Nat → Nat → Nat → List Nat) (sk : List Nat)
    (hH : validHash H) (hprng : validPRNG prng) :
    publicKeyOf H prng sk = H (((List.range 34).map (fun i =>
      iterateHash H (block (generateKeySeedMaterial prng sk) i) 256)).flatten) ∧
    ∀ i, i < 34 → block (generateKeyChainTops H prng sk) i =
      iterateHash H (block (generateKeySeedMaterial prng sk) i) 256 := by
  constructor
  · unfold publicKeyOf
    rw [generateKeyChainTops_eq hH hprng]
  · intro i hi
    have hy : (generateKeySeedMaterial prng sk).length = 1088 := hprng sk 0 1088
    rw [generateKeyChainTops_eq hH hprng,
      block_flatten (mapped_blocks_length hH hy _) i (by simpa using hi)]
    exact getElem_map_range _ _

/-- C2 witness: the amended chain-top characterisation evaluated at the
all-zero hash, expander and seed, at chain index 0. -/
theorem C2_witness :
    validHash zeroHash ∧ validPRNG zeroPRNG ∧
    publicKeyOf zeroHash zeroPRNG zeroSK = zeroHash (((List.range 34).map (fun i =>
      iterateHash zeroHash (block (generateKeySeedMaterial zeroPRNG zeroSK) i)
        256)).flatten) ∧
    block (generateKeyChainTops zeroHash zeroPRNG zeroSK) 0 =
      iterateHash zeroHash (block (generateKeySeedMaterial zeroPRNG zeroSK) 0) 256 :=
  ⟨zeroHash_valid, zeroPRNG_valid,
    (C2_generateKey_chains zeroHash zeroPRNG zeroSK zeroHash_valid zeroPRNG_valid).1,
    (C2_generateKey_chains zeroHash zeroPRNG zeroSK zeroHash_valid zeroPRNG_valid).2
      0 (by omega)⟩

set_option maxRecDepth 100000 in
/-- C3 counterexample: on a concrete valid signature, Verify succeeds, yet
hashing each signature element only `255 - vector[i]` times (as the claim
states) recovers a fingerprint that does NOT match the public key — the
code performs `256 - vector[i]` applications. -/
theorem C3_counterexample :
    verify stepHash (publicKeyOf stepHash zeroPRNG zeroSK) []
        (sign stepHash zeroPRNG zeroSK []) ≠
      ((publicKeyOf stepHash zeroPRNG zeroSK) ==
        stepHash (((List.range 34).map (fun i =>
          iterateHash stepHash (block (sign stepHash zeroPRNG zeroSK []) i)
            (255 - (checksummedMessageHash stepHash []).getD i 0))).flatten)) := by
  decide

/-- C3 (amended): Verify computes chain top `i` by applying the hash
exactly `256 - vector[i]` times to the `i`-th signature element and
compares the hash of their concatenation to the public key. -/
theorem C3_verify_chains (H : List Nat → List Nat) (pk msg sig : List Nat)
    (hH : validHash H) (hsig : sig.length = 1088) :
    verify H pk msg sig = (pk == H (((List.range 34).map (fun i =>
      iterateHash H (block sig i)
        (256 - (checksummedMessageHash H msg).getD i 0))).flatten)) := by
  rw [verify_eq hH pk msg sig hsig]
  have hcongr : ∀ i ∈ List.range 34,
      iterateHash H (block sig i)
          (255 - (checksummedMessageHash H msg).getD i 0 + 1) =
        iterateHash H (block sig i)
          (256 - (checksummedMessageHash H msg).getD i 0) := by
    intro i _
    have hlt := checksummedMessageHash_getD_lt hH msg i
    have harith : 255 - (checksummedMessageHash H msg).getD i 0 + 1 =
        256 - (checksummedMessageHash H msg).getD i 0 := by omega
    rw [harith]
  rw [List.map_congr_left hcongr]

/-- C3 witness: the amended Verify characterisation evaluated on the
all-zero hash, an all-zero public key, the empty message and an all-zero
1088-byte signature. -/
theorem C3_witness :
    validHash zeroHash ∧ (List.replicate 1088 0 : List Nat).length = 1088 ∧
    verify zeroHash zeroSK [] (List.replicate 1088 0) =
      (zeroSK == zeroHash (((List.range 34).map (fun i =>
        iterateHash zeroHash (block (List.replicate 1088 0) i)
          (256 - (checksummedMessageHash zeroHash []).getD i 0))).flatten)) :=
  ⟨zeroHash_valid, by rw [List.length_replicate],
    C3_verify_chains zeroHash zeroSK [] (List.replicate 1088 0)
      zeroHash_valid (by rw [List.length_replicate])⟩

/-- C4: Sign produces a 1088-byte signature whose `i`-th 32-byte element is
the hash applied exactly `vector[i]` times to the `i`-th chain seed, where
the vector is the checksummed message hash and the chain seeds are the
expansion of the secret key. -/
theorem C4_sign_elements (H : List Nat → List Nat)
    (prng : List Nat → Nat → Nat → List Nat) (sk msg : List Nat)
    (hH : validHash H) (hprng : validPRNG prng) :
    (sign H prng sk msg).length = 1088 ∧
    ∀ i, i < 34 → block (sign H prng sk msg) i =
      iterateHash H (block (signSeedMaterial prng sk) i)
        ((checksummedMessageHash H msg).getD i 0) := by
  refine ⟨length_sign hH hprng sk msg, ?_⟩
  intro i hi
  have hy : (signSeedMaterial prng sk).length = 1088 := hprng sk 0 1088
  rw [sign_eq hH hprng,
    block_flatten (mapped_blocks_length hH hy _) i (by simpa using hi)]
  exact getElem_map_range _ _

/-- C4 witness: signature layout evaluated at the all-zero hash, expander
and seed, empty message, element 0. -/
theorem C4_witness :
    validHash zeroHash ∧ validPRNG zeroPRNG ∧
    (sign zeroHash zeroPRNG zeroSK []).length = 1088 ∧
    block (sign zeroHash zeroPRNG zeroSK []) 0 =
      iterateHash zeroHash (block (signSeedMaterial zeroPRNG zeroSK) 0)
        ((checksummedMessageHash zeroHash []).getD 0 0) :=
  ⟨zeroHash_valid, zeroPRNG_valid,
    (C4_sign_elements zeroHash zeroPRNG zeroSK [] zeroHash_valid zeroPRNG_valid).1,
    (C4_sign_elements zeroHash zeroPRNG zeroSK [] zeroHash_valid zeroPRNG_valid).2
      0 (by omega)⟩

/-- C5: the message encoding is a 34-byte vector: the 32 digest bytes of
the message followed by the two little-endian bytes of the 16-bit sum of
`255 - digest[k]` over the digest bytes. -/
theorem C5_encode (H : List Nat → List Nat) (m : List Nat) (hH : validHash H) :
    (checksummedMessageHash H m).length = 34 ∧
    checksummedMessageHash H m = H m ++
      [((H m).map (fun b => 255 - b)).sum % 256,
       ((H m).map (fun b => 255 - b)).sum / 256] := by
  have hs := checksum_spec hH m
  refine ⟨checksummedMessageHash_length hH m, ?_⟩
  unfold checksummedMessageHash
  rw [hs.1]
  have hlt : ((H m).map (fun b => 255 - b)).sum / 256 < 256 := by
    have := hs.2
    omega
  rw [Nat.mod_eq_of_lt hlt]

/-- C5 witness: the encoding of the empty message under the all-zero
hash. -/
theorem C5_witness :
    validHash zeroHash ∧
    (checksummedMessageHash zeroHash []).length = 34 ∧
    checksummedMessageHash zeroHash [] = zeroHash [] ++
      [((zeroHash []).map (fun b => 255 - b)).sum % 256,
       ((zeroHash []).map (fun b => 255 - b)).sum / 256] :=
  ⟨zeroHash_valid, (C5_encode zeroHash [] zeroHash_valid).1,
    (C5_encode zeroHash [] zeroHash_valid).2⟩

/-- C6: the checksum value lies in `[0, 8160]` and the 16-bit accumulation
never wraps: the `uint16` fold equals the unbounded fold. -/
theorem C6_checksum_bound (H : List Nat → List Nat) (m : List Nat)
    (hH : validHash H) :
    checksum H m = ((H m).map (fun b => 255 - b)).sum ∧
    ((H m).map (fun b => 255 - b)).sum ≤ 8160 ∧
    (H m).foldl (fun c b => (c + (255 - b)) % 65536) 0 =
      (H m).foldl (fun c b => c + (255 - b)) 0 := by
  have hs := checksum_spec hH m
  refine ⟨hs.1, hs.2, ?_⟩
  have h1 : (H m).foldl (fun c b => (c + (255 - b)) % 65536) 0 =
      ((H m).map (fun b => 255 - b)).sum := by
    have := hs.1
    unfold checksum at this
    simpa using this
  rw [h1, foldl_plain_eq_sum]
  omega

/-- C6 witness: the checksum of the empty message under the all-zero hash
is `8160` and within bounds. -/
theorem C6_witness :
    validHash zeroHash ∧
    checksum zeroHash [] = ((zeroHash []).map (fun b => 255 - b)).sum ∧
    ((zeroHash []).map (fun b => 255 - b)).sum ≤ 8160 ∧
    (zeroHash []).foldl (fun c b => (c + (255 - b)) % 65536) 0 =
      (zeroHash []).foldl (fun c b => c + (255 - b)) 0 :=
  ⟨zeroHash_valid, (C6_checksum_bound zeroHash [] zeroHash_valid).1,
    (C6_checksum_bound zeroHash [] zeroHash_valid).2.1,
    (C6_checksum_bound zeroHash [] zeroHash_valid).2.2⟩

/-- C7: GenerateKey fails exactly when the entropy read fails, the read
failure is propagated verbatim, and this is the only failure path: on a
successful read it always returns a key pair. -/
theorem C7_generateKey_error (E : Type) (H : List Nat → List Nat)
    (prng : List Nat → Nat → Nat → List Nat) :
    (∀ e : E, generateKey E H prng (Except.error e) = Except.error e) ∧
    (∀ sk, generateKey E H prng (Except.ok sk) =
      Except.ok (publicKeyOf H prng sk, sk)) ∧
    (∀ (r : Except E (List Nat)) (e : E),
      generateKey E H prng r = Except.error e → r = Except.error e) := by
  refine ⟨fun e => rfl, fun sk => rfl, ?_⟩
  intro r e h
  cases r with
  | error e' =>
      simp only [generateKey, Except.error.injEq] at h
      rw [h]
  | ok sk =>
      simp [generateKey] at h

/-- C7 witness: a concrete failed read is propagated verbatim and a
concrete successful read yields a key pair. -/
theorem C7_witness :
    generateKey Nat zeroHash zeroPRNG (Except.error 7) = Except.error 7 ∧
    generateKey Nat zeroHash zeroPRNG (Except.ok zeroSK) =
      Except.ok (publicKeyOf zeroHash zeroPRNG zeroSK, zeroSK) :=
  ⟨(C7_generateKey_error Nat zeroHash zeroPRNG).1 7,
    (C7_generateKey_error Nat zeroHash zeroPRNG).2.1 zeroSK⟩

/-- C8: the 1088 bytes of chain-seed material derived inside GenerateKey
and inside Sign are identical: both are the expander applied to the secret
key with the same fixed nonce 0 and length 1088, a pure function of the
secret key alone. -/
theorem C8_seed_rederivation (prng : List Nat → Nat → Nat → List Nat)
    (sk : List Nat) :
    generateKeySeedMaterial prng sk = signSeedMaterial prng sk ∧
    generateKeySeedMaterial prng sk = prng sk 0 1088 ∧
    signSeedMaterial prng sk = prng sk 0 1088 :=
  ⟨rfl, rfl, rfl⟩

/-- C9: iterating the hash `k` times and then `255 - k` further times from
a seed yields the same value as iterating 255 times, for any `k ≤ 255`. -/
theorem C9_iterate_additivity (H : List Nat → List Nat) (seed : List Nat)
    (k : Nat) (hk : k ≤ 255) :
    iterateHash H (iterateHash H seed k) (255 - k) = iterateHash H seed 255 := by
  have harith : k + (255 - k) = 255 := by omega
  rw [← iterateHash_add, harith]

/-- C9 witness: the additive-iteration identity at `k = 3` on the all-zero
seed with the stepping hash. -/
theorem C9_witness :
    3 ≤ 255 ∧ iterateHash stepHash (iterateHash stepHash zeroSK 3) (255 - 3) =
      iterateHash stepHash zeroSK 255 :=
  ⟨by omega, C9_iterate_additivity stepHash zeroSK 3 (by omega)⟩

end Winternitz
